import Mathlib

/-!
Verification development for the AWS-Multi-Session-Custom-Alias extension.

The definitions below are a shallow embedding of the JavaScript source:

* `src/src/utils/alias.js` — the `AliasManager` class: the account-id
  codec (`normalizeAccountId`, `formatAccountId`), the shared regex
  `ACCOUNT_ID_PATTERN`, the scope classifier (`isExcludedElement`), the
  text rewriter (`applyAliasesToText`), the DOM annotator
  (`applyAliasToElement`) and the clearing pass
  (`clearAliasesFromElement`).
* the storage layer (`StorageManager.importAliases` /
  `StorageManager.exportAliases`) and the background service worker
  handlers (`handleImportAliases` / `handleExportAliases`).

Texts are modelled as `List Char`.  JavaScript's `\d` matches exactly
the ASCII digits, which is `Char.isDigit`.  The shared regex object
`ACCOUNT_ID_PATTERN` carries the `g` flag, so every `.test(...)` call
reads and writes its `lastIndex` property; that mutable scan position is
made explicit as a `Nat` state threaded through the functions that call
`.test`.  `String.prototype.replace` with a global regex always starts
its scan at position 0 and resets `lastIndex`, so the rewriting scan
itself is stateless.
-/

/-- Convert a string literal to the `List Char` representation used
throughout this development. -/
def txt (s : String) : List Char := s.data

/-- Boolean test that `p` is a prefix of `l` (character-exact). -/
def isPrefixB : List Char → List Char → Bool
  | [], _ => true
  | _ :: _, [] => false
  | a :: as, b :: bs => a = b && isPrefixB as bs

/-- Boolean substring test, the model of JavaScript
`String.prototype.includes`. -/
def isInfixB (p : List Char) : List Char → Bool
  | [] => isPrefixB p []
  | b :: bs => isPrefixB p (b :: bs) || isInfixB p bs

/-- `AliasManager.normalizeAccountId`: a global replace of the hyphen
by the empty string removes every hyphen. -/
def normalizeAccountId (accountId : List Char) : List Char :=
  accountId.filter (fun c => c != '-')

/-- `AliasManager.formatAccountId`: when the input has length 12 and
matches `^\d{12}$` (for a length-12 string that is exactly: all
characters are digits), return the `slice(0,4)-slice(4,8)-slice(8,12)`
hyphen-grouped form; otherwise return the input unchanged. -/
def formatAccountId (accountId : List Char) : List Char :=
  if accountId.length = 12 && accountId.all Char.isDigit then
    accountId.take 4 ++ '-' :: (accountId.drop 4).take 4
      ++ '-' :: (accountId.drop 8).take 4
  else accountId

/-- Consume exactly `n` digits from the front of `l`, returning the
rest; `none` when fewer than `n` digits are available. -/
def takeDigits : Nat → List Char → Option (List Char)
  | 0, l => some l
  | _ + 1, [] => none
  | n + 1, c :: cs => if c.isDigit then takeDigits n cs else none

/-- Consume a single hyphen from the front of `l`. -/
def expectDash : List Char → Option (List Char)
  | '-' :: cs => some cs
  | _ => none

/-- Does `\d{4}-\d{4}-\d{4}` (the first alternative of
`ACCOUNT_ID_PATTERN`) match at the beginning of `l`? -/
def matchHyphen (l : List Char) : Bool :=
  match takeDigits 4 l with
  | none => false
  | some r1 =>
    match expectDash r1 with
    | none => false
    | some r2 =>
      match takeDigits 4 r2 with
      | none => false
      | some r3 =>
        match expectDash r3 with
        | none => false
        | some r4 => (takeDigits 4 r4).isSome

/-- Match of `ACCOUNT_ID_PATTERN` = `(\d{4}-\d{4}-\d{4}|\d{12})` at the
beginning of `l`, returning the length of the match.  The alternation
is ordered: the hyphenated form (length 14) is tried before the plain
12-digit form (length 12); the two alternatives can never both match at
the same position, so no further backtracking arises. -/
def matchAt (l : List Char) : Option Nat :=
  if matchHyphen l then some 14
  else if (takeDigits 12 l).isSome then some 12 else none

/-- Scan for the leftmost match of `ACCOUNT_ID_PATTERN` in the given
suffix, where `pos` is the absolute position of the suffix's head;
returns absolute (start, end) positions.  A regex scan tries a match at
each position in turn, moving one character right on failure. -/
def searchAux (pos : Nat) : List Char → Option (Nat × Nat)
  | [] => none
  | c :: cs =>
    match matchAt (c :: cs) with
    | some len => some (pos, pos + len)
    | none => searchAux (pos + 1) cs

/-- `ACCOUNT_ID_PATTERN.test(t)` for the shared global-flag regex: the
scan starts at the regex object's current `lastIndex`; on a match it
returns `true` and stores the match's end position in `lastIndex`; on
failure it returns `false` and resets `lastIndex` to 0.  The returned
pair is (result, new lastIndex). -/
def regexTestG (t : List Char) (lastIdx : Nat) : Bool × Nat :=
  match searchAux lastIdx (t.drop lastIdx) with
  | some (_, e) => (true, e)
  | none => (false, 0)

/-- The identifier-to-label mapping (`aliasMap`), a JavaScript object
with 12-digit keys; modelled as an association list with unique keys. -/
abbrev AliasMap := List (List Char × List Char)

/-- Property access `aliasMap[normalizedId]`. -/
def lookupAlias : AliasMap → List Char → Option (List Char)
  | [], _ => none
  | (k, v) :: rest, key => if k = key then some v else lookupAlias rest key

/-- The idempotency guard at the top of `applyAliasesToText`: the text
contains both parentheses and `Object.values(aliasMap).some(alias =>
text.includes("(" + alias + ")"))` holds. -/
def textGuard (t : List Char) (m : AliasMap) : Bool :=
  isInfixB [ '(' ] t && isInfixB [ ')' ] t &&
    m.any (fun p => isInfixB ('(' :: (p.2 ++ [')'])) t)

/-- One matched occurrence during the `text.replace(ACCOUNT_ID_PATTERN,
callback)` scan: `mt` is the matched text; its normalized form is looked
up in the map, and a truthy (non-empty) alias appends
`" (" + alias + ")"` after the occurrence's original form; otherwise the
match is left unchanged.  `recRest` is the already-rewritten remainder. -/
def rewriteHit (m : AliasMap) (mt : List Char) (recRest : List Char) : List Char :=
  match lookupAlias m (normalizeAccountId mt) with
  | some a => if a = [] then mt ++ recRest
              else mt ++ ' ' :: '(' :: (a ++ [')']) ++ recRest
  | none => mt ++ recRest

/-- The left-to-right non-overlapping replacement scan of
`text.replace(ACCOUNT_ID_PATTERN, callback)`.  The fuel argument is an
upper bound on the number of scan steps; `rewriteScan` instantiates it
with the text's length, which always suffices because each step consumes
at least one character. -/
def rewriteScanF (m : AliasMap) : Nat → List Char → List Char
  | 0, l => l
  | _ + 1, [] => []
  | f + 1, c :: cs =>
    match matchAt (c :: cs) with
    | some len =>
        rewriteHit m ((c :: cs).take len) (rewriteScanF m f ((c :: cs).drop len))
    | none => c :: rewriteScanF m f cs

/-- The replacement pass of `applyAliasesToText` (a `String.replace`
with the global pattern: stateless, always scanning from position 0). -/
def rewriteScan (m : AliasMap) (l : List Char) : List Char :=
  rewriteScanF m l.length l

/-- `AliasManager.applyAliasesToText`: if the guard detects an already
applied alias the text is returned unchanged, otherwise every
occurrence of the pattern is rewritten via the replacement scan. -/
def applyAliasesToText (t : List Char) (m : AliasMap) : List Char :=
  if textGuard t m then t else rewriteScan m t

/- The rendered document tree: text nodes and element nodes.  An
element carries its tag name, its class attribute (as the list of class
tokens), its id attribute, the Annotation Mark
(`dataset.aliasApplied === 'true'`) and its child nodes.  Parent links
of the live DOM are modelled by passing the ancestor chain explicitly
where the source walks upwards. -/
mutual
/-- A DOM node: character data or an element. -/
inductive DNode where
  | text (s : List Char)
  | elem (e : DElem)
inductive DElem where
  | mk (tag : List Char) (classes : List (List Char)) (idAttr : List Char)
       (mark : Bool) (children : DNodeList)
inductive DNodeList where
  | nil
  | cons (n : DNode) (ns : DNodeList)
end

/-- Tag name accessor. -/
def elemTag : DElem → List Char
  | .mk t _ _ _ _ => t

/-- Class token list accessor. -/
def elemClasses : DElem → List (List Char)
  | .mk _ c _ _ _ => c

/-- Id attribute accessor. -/
def elemId : DElem → List Char
  | .mk _ _ i _ _ => i

/-- Annotation Mark accessor (`element.dataset.aliasApplied === 'true'`). -/
def elemMark : DElem → Bool
  | .mk _ _ _ mk _ => mk

/-- Child list accessor. -/
def elemChildren : DElem → DNodeList
  | .mk _ _ _ _ ch => ch

/-- List append on child-node lists. -/
def nlAppend : DNodeList → DNodeList → DNodeList
  | .nil, ys => ys
  | .cons x xs, ys => .cons x (nlAppend xs ys)

mutual
/-- `textContent` of a node. -/
def nodeText : DNode → List Char
  | .text s => s
  | .elem e => elemText e
/-- `textContent` of an element: concatenation of all descendant text. -/
def elemText : DElem → List Char
  | .mk _ _ _ _ ch => listText ch
/-- `textContent` of a node list. -/
def listText : DNodeList → List Char
  | .nil => []
  | .cons n ns => nodeText n ++ listText ns
end

/-- The serialized class attribute (space-joined tokens), against which
the substring attribute selectors `[class*="..."]` test. -/
def joinClasses : List (List Char) → List Char
  | [] => []
  | [c] => c
  | c :: cs => c ++ ' ' :: joinClasses cs

/-- Does the element match `AliasManager.EXCLUDE_SELECTORS`?  The
entries are: `[class*="arn"]`, `[id*="arn"]`, `[data-*="arn"]`,
`[class*="resource-id"]`, `[class*="resourceId"]`, `code`, `pre`,
`.code-block`, `.code-snippet`, `.template-editor`, `.json-viewer`,
`.yaml-viewer`.  The entry `[data-*="arn"]` is not a well-formed
attribute selector and is modelled as matching no element; the other
entries are substring tests on the class/id attributes, tag-name tests
and class-token tests. -/
def matchesExcludeSelectors (e : DElem) : Bool :=
  isInfixB (txt "arn") (joinClasses (elemClasses e)) ||
  isInfixB (txt "arn") (elemId e) ||
  isInfixB (txt "resource-id") (joinClasses (elemClasses e)) ||
  isInfixB (txt "resourceId") (joinClasses (elemClasses e)) ||
  elemTag e == txt "code" || elemTag e == txt "pre" ||
  (elemClasses e).contains (txt "code-block") ||
  (elemClasses e).contains (txt "code-snippet") ||
  (elemClasses e).contains (txt "template-editor") ||
  (elemClasses e).contains (txt "json-viewer") ||
  (elemClasses e).contains (txt "yaml-viewer")

/-- `AliasManager.isExcludedElement`: the element matches the exclusion
selectors, or `element.closest(...)` finds a matching element starting
at the element itself and walking the ancestor chain `anc`, or the
element's full `textContent` contains one of the ARN literal prefixes. -/
def isExcludedElement (anc : List DElem) (e : DElem) : Bool :=
  matchesExcludeSelectors e || (e :: anc).any matchesExcludeSelectors ||
    isInfixB (txt "arn:aws:") (elemText e) ||
    isInfixB (txt "arn:aws-cn:") (elemText e)

/-- Class test for the Labeled Span (`.aws-custom-alias`). -/
def isAliasSpan (e : DElem) : Bool :=
  (elemClasses e).contains (txt "aws-custom-alias")

mutual
/-- Is this node, or a descendant of it, a Labeled Span? -/
def nodeHasAliasSpan : DNode → Bool
  | .text _ => false
  | .elem e => isAliasSpan e || elemHasAliasSpanDesc e
/-- `element.querySelector('.aws-custom-alias') !== null`: does any
proper descendant element carry the Labeled Span class? -/
def elemHasAliasSpanDesc : DElem → Bool
  | .mk _ _ _ _ ch => listHasAliasSpan ch
/-- Labeled Span search through a node list. -/
def listHasAliasSpan : DNodeList → Bool
  | .nil => false
  | .cons n ns => nodeHasAliasSpan n || listHasAliasSpan ns
end

/-- Blank-text test: `!node.nodeValue.trim()` rejects nodes whose text
is all whitespace. -/
def isBlank (s : List Char) : Bool := s.all Char.isWhitespace

/-- The Labeled Span node produced for one inserted `"(label)"` group:
`<span class="aws-custom-alias">(label)</span>`. -/
def labelSpan (lbl : List Char) : DNode :=
  .elem (.mk (txt "span") [txt "aws-custom-alias"] [] false
    (.cons (.text ('(' :: (lbl ++ [')']))) .nil))

/-- A non-empty pending text run becomes one text node. -/
def flushText : List Char → DNodeList
  | [] => .nil
  | l => .cons (.text l) .nil

/-- Match, at the head of `l`, one occurrence of the span-wrapping
pattern `(\d{4}-\d{4}-\d{4}|\d{12}) \(([^)]+)\)` used to build the
replacement fragment: the identifier alternation, a space, an opening
parenthesis, a non-empty run of characters other than the closing
parenthesis, and the closing parenthesis.  Returns (matched identifier
text, label, rest). -/
def matchAnnAt (l : List Char) : Option (List Char × List Char × List Char) :=
  match matchAt l with
  | none => none
  | some len =>
    match l.drop len with
    | ' ' :: '(' :: r2 =>
      let lbl := r2.takeWhile (fun c => c != ')')
      if lbl = [] then none
      else
        match r2.drop lbl.length with
        | ')' :: r3 => some (l.take len, lbl, r3)
        | _ => none
    | _ => none

/-- Scan of the rewritten text for the fragment construction: each
matched `identifier (label)` group becomes the pending text plus the
identifier and the separating space as one text node, followed by a
Labeled Span holding `(label)`; unmatched characters accumulate into
the pending text.  This is the composition of the `newText.replace`
producing the span-wrapped HTML string with its `innerHTML` parse, for
rewritten text free of markup characters (adjacent character data
merges into single text nodes, and an empty trailing run produces no
node).  The fuel is an upper bound on scan steps; each step consumes at
least one character. -/
def fragScanF : Nat → List Char → List Char → DNodeList
  | 0, acc, rem => flushText (acc ++ rem)
  | _ + 1, acc, [] => flushText acc
  | f + 1, acc, c :: cs =>
    match matchAnnAt (c :: cs) with
    | some (idt, lbl, rest) =>
      .cons (.text (acc ++ idt ++ [' ']))
        (.cons (labelSpan lbl) (fragScanF f [] rest))
    | none => fragScanF f (acc ++ [c]) cs

/-- The document fragment that replaces a rewritten text node. -/
def fragSplit (s : List Char) : DNodeList := fragScanF s.length [] s

mutual
/-- One step of the `TreeWalker(element, SHOW_TEXT)` pass fused with the
per-text-node replacement.  A text node is accepted when its value is
not blank, its immediate parent (with that parent's ancestor chain) is
not excluded, and the shared pattern's stateful `.test` succeeds; the
`.test` calls thread the regex `lastIndex` state in document order, and
all of them run before any replacement, so the filters see the original
tree.  An accepted node whose rewritten text differs is replaced by the
fragment; element nodes are traversed into (only text nodes are
filtered), their own marks untouched. -/
def annNode (m : AliasMap) (parent : DElem) (panc : List DElem) :
    DNode → Nat → DNodeList × Nat
  | .text s, st =>
    if isBlank s then (.cons (.text s) .nil, st)
    else if isExcludedElement panc parent then (.cons (.text s) .nil, st)
    else
      match regexTestG s st with
      | (true, st2) =>
        let s2 := applyAliasesToText s m
        if s2 = s then (.cons (.text s) .nil, st2)
        else (fragSplit s2, st2)
      | (false, st2) => (.cons (.text s) .nil, st2)
  | .elem e, st =>
    match annElem m (parent :: panc) e st with
    | (e2, st2) => (.cons (.elem e2) .nil, st2)
/-- Walk an element's children; the element itself becomes the parent
context of its children. -/
def annElem (m : AliasMap) (anc : List DElem) : DElem → Nat → DElem × Nat
  | .mk t c i mk ch, st =>
    match annList m (.mk t c i mk ch) anc ch st with
    | (ch2, st2) => (.mk t c i mk ch2, st2)
/-- Walk a child list left to right, splicing each node's replacement
list in place and threading the regex state. -/
def annList (m : AliasMap) (parent : DElem) (panc : List DElem) :
    DNodeList → Nat → DNodeList × Nat
  | .nil, st => (.nil, st)
  | .cons n ns, st =>
    match annNode m parent panc n st with
    | (l1, st1) =>
      match annList m parent panc ns st1 with
      | (l2, st2) => (nlAppend l1 l2, st2)
end

/-- Set the Annotation Mark (`element.dataset.aliasApplied = 'true'`). -/
def setMark : DElem → DElem
  | .mk t c i _ ch => .mk t c i true ch

/-- `AliasManager.applyAliasToElement`: no-op when the element is
excluded or already marked; when a Labeled Span descendant already
exists the mark is set without rewriting; otherwise the text-node walk
runs and the mark is set.  `anc` is the element's ancestor chain and
`st` the shared regex `lastIndex` on entry. -/
def applyAliasToElement (anc : List DElem) (e : DElem) (m : AliasMap) (st : Nat) :
    DElem × Nat :=
  if isExcludedElement anc e then (e, st)
  else if elemMark e then (e, st)
  else if elemHasAliasSpanDesc e then (setMark e, st)
  else
    match annElem m anc e st with
    | (e2, st2) => (setMark e2, st2)

/-- Does the regex of the clearing pass, `' ' '\(' [^)]+ '\)'` anchored
at the end, match at the head of `l` and run to the end of `l`?  The
character class cannot cross the closing parenthesis, so only the
maximal non-parenthesis run can be followed by the final parenthesis. -/
def stripMatchAt : List Char → Bool
  | ' ' :: '(' :: r =>
    let lbl := r.takeWhile (fun c => c != ')')
    !lbl.isEmpty && r.drop lbl.length == [')']
  | _ => false

/-- `text.replace(trailing-paren-group-regex, '')` of the clearing pass:
the leftmost position whose match reaches the end of the text is cut
off; if no position matches, the text is unchanged. -/
def stripTrailingAlias : List Char → List Char
  | [] => []
  | c :: cs => if stripMatchAt (c :: cs) then [] else c :: stripTrailingAlias cs

/-- Strip the pending preceding text node once more (each removed span
applies the trailing-group replace to its `previousSibling`). -/
def stripPend : Option (List Char) → Option (List Char)
  | none => none
  | some t2 => some (stripTrailingAlias t2)

/-- Emit a pending preceding text node. -/
def flushPend : Option (List Char) → DNodeList
  | none => .nil
  | some t2 => .cons (.text t2) .nil

mutual
/-- The clearing pass over a sibling list.  `pend` carries the text node
immediately preceding the cursor, still subject to stripping: every
Labeled Span is removed and applies the trailing-group replace to that
text node (consecutive spans strip the same node repeatedly, as the
sequential `span.remove()` calls do); any other element is recursed
into and keeps its place, resetting the pending text. -/
def clearNodeList : Option (List Char) → DNodeList → DNodeList
  | pend, .nil => flushPend pend
  | pend, .cons (.text t2) ns => nlAppend (flushPend pend) (clearNodeList (some t2) ns)
  | pend, .cons (.elem e) ns =>
    if isAliasSpan e then clearNodeList (stripPend pend) ns
    else nlAppend (flushPend pend) (.cons (.elem (clearElemMarks e)) (clearNodeList none ns))
/-- Clear a non-span descendant element: its own mark is deleted (the
`[data-alias-applied="true"]` query matches every marked descendant)
and its children are cleared. -/
def clearElemMarks : DElem → DElem
  | .mk t c i _ ch => .mk t c i false (clearNodeList none ch)
end

/-- `AliasManager.clearAliasesFromElement`: removes every Labeled Span
under the element, re-applies the trailing-group replace to each span's
preceding text node, and deletes the mark of every descendant element.
Both queries return descendants only, so the root element's own mark is
left as it is. -/
def clearAliasesFromElement : DElem → DElem
  | .mk t c i mk ch => .mk t c i mk (clearNodeList none ch)

/-- A parsed JSON document, the result of `JSON.parse` on the
serialized texts that cross the storage boundary.  Object fields are an
association list (JavaScript object keys are unique). -/
inductive JValue where
  | null
  | jbool (b : Bool)
  | jnum (n : Int)
  | jstr (s : List Char)
  | jarr (es : List JValue)
  | jobj (fs : List (List Char × JValue))

/-- JavaScript property access `o[key]` on an object's own fields. -/
def getField : List (List Char × JValue) → List Char → Option JValue
  | [], _ => none
  | (k, v) :: rest, key => if k = key then some v else getField rest key

/-- JavaScript truthiness of a value. -/
def jTruthy : JValue → Bool
  | .null => false
  | .jbool b => b
  | .jnum n => n != 0
  | .jstr s => !s.isEmpty
  | .jarr _ => true
  | .jobj _ => true

/-- `typeof v === 'object'`: true for objects, arrays and `null`. -/
def isObjectTypeof : JValue → Bool
  | .null => true
  | .jarr _ => true
  | .jobj _ => true
  | _ => false

/-- `Object.entries(v)` / the `for...in` key enumeration: an object's
own fields; an array's index/element pairs with decimal-string keys;
empty otherwise. -/
def jEntries : JValue → List (List Char × JValue)
  | .jobj fs => fs
  | .jarr es => es.enum.map (fun p => (Nat.toDigits 10 p.1, p.2))
  | _ => []

/-- The canonical Identifier shape `^\d{12}$` (JavaScript's `$` does
not match before a trailing newline, so this is exactly: length 12 and
all characters digits). -/
def is12Digits (k : List Char) : Bool :=
  k.length = 12 && k.all Char.isDigit

/-- All-whitespace test: `!s.trim()` is true exactly when the string is
empty or all whitespace. -/
def isBlankStr (s : List Char) : Bool := s.all Char.isWhitespace

/-- The failure cases of the two import routines.  Which message text
is produced is irrelevant to the claims; the constructors record the
distinct `throw` sites. -/
inductive ImpErr where
  | invalidJson
  | invalidFormat
  | invalidAccountId
  | typeError
  | invalidDataFormat
  | invalidEntry

/-- `StorageManager.importAliases` (the settings UI's import path):
after `JSON.parse` (`none` models a parse failure), the parsed value
must be a non-`null` `typeof 'object'` value, and every enumerated key
must be a canonical 12-digit Identifier; values are not inspected.  On
success the parsed value itself is the new stored mapping. -/
def stImportAliases (input : Option JValue) : Except ImpErr JValue :=
  match input with
  | none => .error .invalidJson
  | some v =>
    match v with
    | .null => .error .invalidFormat
    | .jbool _ => .error .invalidFormat
    | .jnum _ => .error .invalidFormat
    | .jstr _ => .error .invalidFormat
    | .jobj fs =>
      if fs.all (fun p => is12Digits p.1) then .ok (.jobj fs)
      else .error .invalidAccountId
    | .jarr es =>
      if (jEntries (.jarr es)).all (fun p => is12Digits p.1) then .ok (.jarr es)
      else .error .invalidAccountId

/-- The storage update performed by `StorageManager.importAliases`: on
success `chrome.storage.local.set` replaces the stored mapping wholly;
a thrown validation error leaves it untouched.  Returns (success,
stored mapping afterwards). -/
def stImportRun (stored : JValue) (input : Option JValue) : Bool × JValue :=
  match stImportAliases input with
  | .ok v => (true, v)
  | .error _ => (false, stored)

/-- `StorageManager.exportAliases`: `JSON.stringify(aliases, null, 2)`
serializes the bare stored mapping; the model returns the JSON value of
the produced document. -/
def stExportAliases (stored : JValue) : JValue := stored

/-- The shape dispatch of the background `handleImportAliases`: reading
`.aliases` of `null` throws (caught as a failure); an object whose
truthy `typeof 'object'` field `aliases` exists selects that field (the
versioned export shape); otherwise any `typeof 'object'` value is taken
as the bare legacy mapping; anything else is an invalid data format. -/
def bgSelectAliases : JValue → Except ImpErr JValue
  | .null => .error .typeError
  | .jobj fs =>
    match getField fs (txt "aliases") with
    | some av =>
      if jTruthy av && isObjectTypeof av then .ok av else .ok (.jobj fs)
    | none => .ok (.jobj fs)
  | .jarr es => .ok (.jarr es)
  | .jstr _ => .error .invalidDataFormat
  | .jnum _ => .error .invalidDataFormat
  | .jbool _ => .error .invalidDataFormat

/-- Validation of one imported entry in `handleImportAliases`: the key
matches `^\d{12}$` and the value is a string whose trim is non-empty. -/
def entryOk (p : List Char × JValue) : Bool :=
  is12Digits p.1 &&
    (match p.2 with
     | .jstr s => !isBlankStr s
     | _ => false)

/-- The background `handleImportAliases`: parse, shape dispatch, then
per-entry validation of the selected mapping; on success the selected
mapping is the new stored value. -/
def bgImportAliases (input : Option JValue) : Except ImpErr JValue :=
  match input with
  | none => .error .invalidJson
  | some v =>
    match bgSelectAliases v with
    | .error e => .error e
    | .ok av =>
      if (jEntries av).all entryOk then .ok av else .error .invalidEntry

/-- The storage update performed by `handleImportAliases`: success
replaces the stored mapping wholly with the selected mapping; any
failure is reported before the write, leaving storage untouched. -/
def bgImportRun (stored : JValue) (input : Option JValue) : Bool × JValue :=
  match bgImportAliases input with
  | .ok v => (true, v)
  | .error _ => (false, stored)

/-- The background `handleExportAliases`: builds the export document
with fields `version` (the literal "1.0.0"), `exportedAt` (the current
timestamp, passed in as `now`) and `aliases` (the stored mapping). -/
def bgExportAliases (stored : JValue) (now : List Char) : JValue :=
  .jobj [(txt "version", .jstr (txt "1.0.0")),
         (txt "exportedAt", .jstr now),
         (txt "aliases", stored)]

/-- Shape test for the versioned export document: fields `version` and
`exportedAt` are present and `aliases` is present and an object. -/
def isExportShape : JValue → Bool
  | .jobj fs =>
    (getField fs (txt "version")).isSome &&
    (getField fs (txt "exportedAt")).isSome &&
    (match getField fs (txt "aliases") with
     | some (.jobj _) => true
     | _ => false)
  | _ => false

/-- Concrete mapping: account 123456789012 labelled Prod. -/
def mProd : AliasMap := [(txt "123456789012", txt "Prod")]

/-- A plain element holding the end-to-end input text. -/
def elC4 : DElem :=
  .mk (txt "div") [] [] false
    (.cons (.text (txt "Account: 1234-5678-9012")) .nil)

/-- The Labeled Span produced for the label Prod. -/
def spanProdNode : DNode :=
  .elem (.mk (txt "span") [txt "aws-custom-alias"] [] false
    (.cons (.text (txt "(Prod)")) .nil))

/-- The annotated form of `elC4`: text kept in hyphenated form with the
separating space, the Labeled Span, and the mark set. -/
def elC4out : DElem :=
  .mk (txt "div") [] [] true
    (.cons (.text (txt "Account: 1234-5678-9012 ")) (.cons spanProdNode .nil))

/-- A plain element whose text is an ARN literal containing a matching
identifier substring. -/
def arnEl : DElem :=
  .mk (txt "div") [] [] false
    (.cons (.text (txt "arn:aws:iam::123456789012:role/x")) .nil)

/-- An already marked element containing a displayed identifier. -/
def markedEl : DElem :=
  .mk (txt "div") [] [] true
    (.cons (.text (txt "1234-5678-9012")) .nil)

/-- A stored mapping present before an import. -/
def stored0 : JValue := .jobj [(txt "111111111111", .jstr (txt "Old"))]

/-- A valid one-entry mapping object, as JSON fields. -/
def aliasesProd : List (List Char × JValue) :=
  [(txt "123456789012", .jstr (txt "Prod"))]

/-- The fields of a versioned export document wrapping `aliasesProd`. -/
def exportFields : List (List Char × JValue) :=
  [(txt "version", .jstr (txt "1.0.0")),
   (txt "exportedAt", .jstr (txt "2024-01-01T00:00:00.000Z")),
   (txt "aliases", .jobj aliasesProd)]

/-- The versioned export document wrapping `aliasesProd`. -/
def exportDoc : JValue := .jobj exportFields

theorem isPrefixB_iff (p : List Char) : ∀ l, isPrefixB p l = true ↔ p <+: l := by
  induction p with
  | nil => intro l; simp [isPrefixB]
  | cons a as ih =>
    intro l
    cases l with
    | nil => simp [isPrefixB]
    | cons b bs =>
      simp [isPrefixB, Bool.and_eq_true, decide_eq_true_eq, ih bs,
        List.cons_prefix_cons]

theorem isInfixB_iff (p : List Char) : ∀ l, isInfixB p l = true ↔ p <:+: l := by
  intro l
  induction l with
  | nil => simp [isInfixB, isPrefixB_iff]
  | cons b bs ih =>
    rw [isInfixB, Bool.or_eq_true, isPrefixB_iff, ih, List.infix_cons_iff]

theorem lookupAlias_mem_values {m : AliasMap} {k a : List Char}
    (h : lookupAlias m k = some a) : a ∈ m.map Prod.snd := by
  induction m with
  | nil => simp [lookupAlias] at h
  | cons p rest ih =>
    rw [lookupAlias] at h
    by_cases hk : p.1 = k
    · simp [hk] at h
      simp [← h]
    · simp [hk] at h
      simp [ih h]

theorem matchAt_pos {l : List Char} {len : Nat} (h : matchAt l = some len) :
    0 < len := by
  unfold matchAt at h
  by_cases h1 : matchHyphen l = true
  · simp [h1] at h; omega
  · simp [h1] at h
    by_cases h2 : (takeDigits 12 l).isSome = true
    · simp [h2] at h; omega
    · simp [h2] at h

theorem rewriteHit_cases (m : AliasMap) (mt r : List Char) :
    rewriteHit m mt r = mt ++ r ∨
    ∃ a, lookupAlias m (normalizeAccountId mt) = some a ∧ a ≠ [] ∧
      rewriteHit m mt r = mt ++ ' ' :: '(' :: (a ++ [')']) ++ r := by
  unfold rewriteHit
  cases hlk : lookupAlias m (normalizeAccountId mt) with
  | none => exact Or.inl rfl
  | some a =>
    by_cases ha : a = []
    · simp [ha]
    · simp only [ha, if_false]
      exact Or.inr ⟨a, rfl, ha, rfl⟩

theorem infix_append_right {p ys : List Char} (xs : List Char)
    (h : p <:+: ys) : p <:+: xs ++ ys := by
  obtain ⟨s, t, hst⟩ := h
  exact ⟨xs ++ s, t, by rw [← hst]; simp⟩

theorem rewriteScanF_changed (m : AliasMap) :
    ∀ (f : Nat) (l : List Char), l.length ≤ f → rewriteScanF m f l ≠ l →
    ∃ a, a ∈ m.map Prod.snd ∧ a ≠ [] ∧
      ('(' :: (a ++ [')'])) <:+: rewriteScanF m f l := by
  intro f
  induction f with
  | zero =>
    intro l hl hne
    rw [rewriteScanF] at hne
    exact absurd rfl hne
  | succ f ih =>
    intro l hl hne
    cases l with
    | nil =>
      rw [rewriteScanF] at hne
      exact absurd rfl hne
    | cons c cs =>
      cases hm : matchAt (c :: cs) with
      | none =>
        rw [rewriteScanF, hm] at hne ⊢
        have h2 : rewriteScanF m f cs ≠ cs := by
          intro h; exact hne (by rw [h])
        have hlen : cs.length ≤ f := by
          simp only [List.length_cons] at hl; omega
        obtain ⟨a, ham, hane, hinf⟩ := ih cs hlen h2
        refine ⟨a, ham, hane, ?_⟩
        obtain ⟨s, t, hst⟩ := hinf
        exact ⟨c :: s, t, by rw [← hst]; simp⟩
      | some len =>
        simp only [rewriteScanF, hm] at hne ⊢
        rcases rewriteHit_cases m ((c :: cs).take len)
            (rewriteScanF m f ((c :: cs).drop len)) with hcase | ⟨a, hlk, hane, hcase⟩
        · rw [hcase] at hne ⊢
          have hsplit : (c :: cs).take len ++ (c :: cs).drop len = c :: cs :=
            List.take_append_drop len (c :: cs)
          have h2 : rewriteScanF m f ((c :: cs).drop len) ≠ (c :: cs).drop len := by
            intro h
            rw [h, hsplit] at hne
            exact hne rfl
          have hpos : 0 < len := matchAt_pos hm
          have hlen : ((c :: cs).drop len).length ≤ f := by
            rw [List.length_drop]
            simp only [List.length_cons] at hl ⊢
            omega
          obtain ⟨a, ham, hane, hinf⟩ := ih ((c :: cs).drop len) hlen h2
          exact ⟨a, ham, hane, infix_append_right _ hinf⟩
        · rw [hcase]
          refine ⟨a, lookupAlias_mem_values hlk, hane, ?_⟩
          refine ⟨(c :: cs).take len ++ [' '], rewriteScanF m f ((c :: cs).drop len), ?_⟩
          simp

theorem textGuard_of_value_infix {t a : List Char} {m : AliasMap}
    (ham : a ∈ m.map Prod.snd) (hinf : ('(' :: (a ++ [')'])) <:+: t) :
    textGuard t m = true := by
  unfold textGuard
  have h1 : isInfixB [ '(' ] t = true := by
    rw [isInfixB_iff]
    refine List.IsInfix.trans ?_ hinf
    exact List.IsPrefix.isInfix ⟨a ++ [')'], rfl⟩
  have h2 : isInfixB [ ')' ] t = true := by
    rw [isInfixB_iff]
    refine List.IsInfix.trans ?_ hinf
    exact List.IsSuffix.isInfix ⟨'(' :: a, by simp⟩
  have h3 : m.any (fun p => isInfixB ('(' :: (p.2 ++ [')'])) t) = true := by
    rw [List.any_eq_true]
    obtain ⟨p, hp, hpa⟩ := List.mem_map.mp ham
    refine ⟨p, hp, ?_⟩
    rw [hpa, isInfixB_iff]
    exact hinf
  rw [h1, h2, h3]
  rfl

/-- C2: rewriteText is idempotent — for every text `t` and mapping `m`,
a second application of `applyAliasesToText` to an already rewritten
text returns it unchanged: if the first application rewrote anything,
the rewritten text contains a parenthesized label of the mapping and
the guard short-circuits; otherwise the two applications coincide. -/
theorem rewriteText_idempotent (t : List Char) (m : AliasMap) :
    applyAliasesToText (applyAliasesToText t m) m = applyAliasesToText t m := by
  by_cases hg : textGuard t m = true
  · simp [applyAliasesToText, hg]
  · have hg' : textGuard t m = false := Bool.not_eq_true _ |>.mp hg
    by_cases he : rewriteScan m t = t
    · simp [applyAliasesToText, hg', he]
    · have hchanged := rewriteScanF_changed m t.length t le_rfl he
      obtain ⟨a, ham, hane, hinf⟩ := hchanged
      have hg2 : textGuard (rewriteScan m t) m = true :=
        textGuard_of_value_infix ham hinf
      simp [applyAliasesToText, hg', hg2]

theorem all_digits_filter_dash {l : List Char} (h : l.all Char.isDigit = true) :
    l.filter (fun c => c != '-') = l := by
  rw [List.filter_eq_self]
  intro a ha
  have hd : a.isDigit = true := List.all_eq_true.mp h a ha
  rw [bne_iff_ne]
  intro hEq
  rw [hEq] at hd
  exact absurd hd (by decide)

/-- C6: codec round-trip — for every canonical 12-digit Identifier,
`formatAccountId` produces the 4-4-4 hyphen-grouped form built from the
three slices, and `normalizeAccountId` strips the two inserted hyphens
back out, recovering the identifier. -/
theorem accountId_roundtrip (id : List Char) (h1 : id.length = 12)
    (h2 : id.all Char.isDigit = true) :
    formatAccountId id
      = id.take 4 ++ '-' :: (id.drop 4).take 4 ++ '-' :: (id.drop 8).take 4 ∧
    normalizeAccountId (formatAccountId id) = id := by
  have hfmt : formatAccountId id
      = id.take 4 ++ '-' :: (id.drop 4).take 4 ++ '-' :: (id.drop 8).take 4 := by
    unfold formatAccountId
    simp [h1, h2]
  refine ⟨hfmt, ?_⟩
  rw [hfmt]
  unfold normalizeAccountId
  have hall : ∀ n : Nat, (id.drop n).all Char.isDigit = true := by
    intro n
    rw [List.all_eq_true]
    intro a ha
    exact List.all_eq_true.mp h2 a (List.mem_of_mem_drop ha)
  have htk : ∀ n k : Nat, ((id.drop n).take k).all Char.isDigit = true := by
    intro n k
    rw [List.all_eq_true]
    intro a ha
    exact List.all_eq_true.mp (hall n) a (List.mem_of_mem_take ha)
  have h0 : (id.take 4).all Char.isDigit = true := by
    rw [List.all_eq_true]
    intro a ha
    exact List.all_eq_true.mp h2 a (List.mem_of_mem_take ha)
  have hdash : (('-' : Char) != '-') = false := by decide
  rw [List.filter_append, List.filter_append, List.filter_cons, List.filter_cons]
  rw [hdash]
  simp only [if_false, Bool.false_eq_true]
  rw [all_digits_filter_dash h0, all_digits_filter_dash (htk 4 4),
    all_digits_filter_dash (htk 8 4)]
  have hd8 : (id.drop 8).take 4 = id.drop 8 := by
    apply List.take_of_length_le
    rw [List.length_drop, h1]
  have hd4 : (id.drop 4).take 4 ++ id.drop 8 = id.drop 4 := by
    have : id.drop 8 = (id.drop 4).drop 4 := by
      rw [List.drop_drop]
    rw [this, List.take_append_drop]
  rw [hd8, List.append_assoc, hd4, List.take_append_drop]

/-- C6 witness: the round-trip evaluated at the canonical identifier
123456789012. -/
theorem accountId_roundtrip_witness :
    (txt "123456789012").length = 12 ∧
    normalizeAccountId (formatAccountId (txt "123456789012")) = txt "123456789012" :=
  ⟨by decide, (accountId_roundtrip (txt "123456789012") (by decide) (by decide)).2⟩

/-- C3: excluded scope is never rewritten — an excluded element is
returned by `applyAliasToElement` completely unchanged (text, structure
and regex state), and any element whose full text content contains the
ARN literal prefix is classified excluded. -/
theorem excluded_scope_no_rewrite (anc : List DElem) (e : DElem) (m : AliasMap)
    (st : Nat) :
    (isExcludedElement anc e = true → applyAliasToElement anc e m st = (e, st)) ∧
    (isInfixB (txt "arn:aws:") (elemText e) = true → isExcludedElement anc e = true) := by
  constructor
  · intro h
    simp [applyAliasToElement, h]
  · intro h
    simp [isExcludedElement, h]

/-- C3 witness: the ARN text "arn:aws:iam::123456789012:role/x" keeps
its element excluded and therefore byte-identical under annotation with
a mapping containing its embedded identifier. -/
theorem excluded_scope_no_rewrite_witness :
    applyAliasToElement [] arnEl mProd 0 = (arnEl, 0) :=
  (excluded_scope_no_rewrite [] arnEl mProd 0).1
    ((excluded_scope_no_rewrite [] arnEl mProd 0).2 (by rfl))

/-- C4: end-to-end — annotating a fresh element whose text is
"Account: 1234-5678-9012" with the mapping sending 123456789012 to Prod
keeps the hyphenated occurrence, appends the label immediately after
it (total text content "Account: 1234-5678-9012 (Prod)"), wraps the
"(Prod)" portion in a Labeled Span, and marks the element processed.
The shared regex starts from a fresh state (lastIndex 0). -/
theorem annotate_end_to_end :
    applyAliasToElement [] elC4 mProd 0 = (elC4out, 23) ∧
    elemText elC4out = txt "Account: 1234-5678-9012 (Prod)" ∧
    elemMark elC4out = true ∧
    elemHasAliasSpanDesc elC4out = true :=
  ⟨rfl, rfl, rfl, rfl⟩

/-- C5: mark-based idempotency — an element whose Annotation Mark is
set is returned by `applyAliasToElement` completely unchanged, for any
mapping and any regex state. -/
theorem marked_element_not_reprocessed (anc : List DElem) (e : DElem)
    (m : AliasMap) (st : Nat) (h : elemMark e = true) :
    applyAliasToElement anc e m st = (e, st) := by
  unfold applyAliasToElement
  by_cases hex : isExcludedElement anc e = true
  · simp [hex]
  · simp [hex, h]

/-- C5 witness: a marked element holding a displayed identifier is left
untouched. -/
theorem marked_element_not_reprocessed_witness :
    applyAliasToElement [] markedEl mProd 0 = (markedEl, 0) :=
  marked_element_not_reprocessed [] markedEl mProd 0 (by rfl)

/-- C10: the shared pattern has no boundary requirement — a registered
identifier embedded in a 13-digit run is still rewritten, splitting the
number: the first 12 digits match, the label is inserted after them and
the 13th digit follows the inserted label. -/
theorem embedded_id_rewritten :
    applyAliasesToText (txt "1234567890123") [(txt "123456789012", txt "X")]
      = txt "123456789012 (X)3" := by decide

/-- C7: the shared pattern's `.test` is not restartable — the global
regex keeps its `lastIndex` between calls, so two successive
invocations on the same text give different results: the first call
matches and moves `lastIndex` to 12, the second call resumes there,
finds nothing and returns false. -/
theorem pattern_test_shares_scan_state :
    regexTestG (txt "123456789012") 0 = (true, 12) ∧
    regexTestG (txt "123456789012")
      (regexTestG (txt "123456789012") 0).2 = (false, 0) :=
  ⟨by decide, by decide⟩

/-- C1: `clear` does not restore the pre-annotate text — annotation
splits the text node as "Account: 1234-5678-9012 " followed by the span
"(Prod)", so the text node ends in a space, the clearing regex (which
expects the space and the parenthesized group together at the end of
the text node) never matches, and removing the span leaves the trailing
space behind: the restored text content differs from the original. -/
theorem clear_after_annotate_not_inverse :
    elemText elC4 = txt "Account: 1234-5678-9012" ∧
    clearAliasesFromElement (applyAliasToElement [] elC4 mProd 0).1
      = DElem.mk (txt "div") [] [] true
          (.cons (.text (txt "Account: 1234-5678-9012 ")) .nil) ∧
    elemText (clearAliasesFromElement (applyAliasToElement [] elC4 mProd 0).1)
      ≠ elemText elC4 :=
  ⟨rfl, rfl, by decide⟩

/-- C8 counterexample: the settings UI's import path,
`StorageManager.importAliases`, accepts a mapping whose value is not a
non-empty string (the number 42 is stored as given, replacing the
previous mapping), and rejects the versioned export shape (its keys
"version", "exportedAt", "aliases" fail the 12-digit key validation),
contradicting the claim at these concrete inputs. -/
theorem importAll_storage_manager_counterexample :
    stImportRun stored0 (some (.jobj [(txt "123456789012", .jnum 42)]))
      = (true, .jobj [(txt "123456789012", .jnum 42)]) ∧
    stImportRun stored0 (some exportDoc) = (false, stored0) :=
  ⟨rfl, rfl⟩

/-- C8 amended: the background message handler `handleImportAliases`
accepts either the versioned export shape (a truthy object field
`aliases` is selected) or a bare `typeof 'object'` value, fails with a
validation error whenever some enumerated entry has a key that is not a
canonical 12-digit Identifier or a value that is not a string with
non-blank trim — leaving the stored mapping unchanged, never partially
applied — and on success replaces the full stored mapping with the
selected mapping. -/
theorem importAll_validated_atomic (stored : JValue)
    (fs : List (List Char × JValue)) (v av : JValue) :
    (getField fs (txt "aliases") = some av →
      (jTruthy av && isObjectTypeof av) = true →
      bgSelectAliases (.jobj fs) = .ok av) ∧
    (getField fs (txt "aliases") = none →
      bgSelectAliases (.jobj fs) = .ok (.jobj fs)) ∧
    (bgSelectAliases v = .ok av →
      (∃ p, p ∈ jEntries av ∧ entryOk p = false) →
      bgImportRun stored (some v) = (false, stored)) ∧
    (bgSelectAliases v = .ok av →
      (∀ p, p ∈ jEntries av → entryOk p = true) →
      bgImportRun stored (some v) = (true, av)) := by
  refine ⟨?_, ?_, ?_, ?_⟩
  · intro h1 h2
    simp [bgSelectAliases, h1, h2]
  · intro h1
    simp [bgSelectAliases, h1]
  · intro hsel hbad
    cases hall : (jEntries av).all entryOk with
    | true =>
      exfalso
      obtain ⟨p, hp, hpf⟩ := hbad
      have := List.all_eq_true.mp hall p hp
      rw [hpf] at this
      exact Bool.false_ne_true this
    | false =>
      simp [bgImportRun, bgImportAliases, hsel, hall]
  · intro hsel hall
    have h : (jEntries av).all entryOk = true := List.all_eq_true.mpr hall
    simp [bgImportRun, bgImportAliases, hsel, h]

/-- C8 witness: importing the versioned export document over an
existing stored mapping succeeds and replaces the stored mapping with
the document's aliases object. -/
theorem importAll_validated_atomic_witness :
    bgImportRun stored0 (some exportDoc) = (true, .jobj aliasesProd) :=
  (importAll_validated_atomic stored0 exportFields exportDoc (.jobj aliasesProd)).2.2.2
    (by rfl) (by decide)

/-- C9 counterexample: the settings UI's export path,
`StorageManager.exportAliases`, serializes the bare stored mapping:
the produced document is the mapping object itself, which does not have
the version/exportedAt/aliases shape the claim describes. -/
theorem exportAll_bare_mapping_counterexample :
    stExportAliases stored0 = stored0 ∧
    isExportShape (stExportAliases stored0) = false :=
  ⟨rfl, rfl⟩

/-- C9 amended: the background message handler `handleExportAliases`
produces a document of the versioned shape: fields version,
exportedAt and aliases, the aliases field holding exactly the current
stored mapping. -/
theorem exportAll_versioned_shape (ms : List (List Char × JValue))
    (now : List Char) :
    isExportShape (bgExportAliases (.jobj ms) now) = true ∧
    bgExportAliases (.jobj ms) now
      = .jobj [(txt "version", .jstr (txt "1.0.0")),
               (txt "exportedAt", .jstr now),
               (txt "aliases", .jobj ms)] ∧
    getField [(txt "version", .jstr (txt "1.0.0")),
              (txt "exportedAt", .jstr now),
              (txt "aliases", .jobj ms)] (txt "aliases") = some (.jobj ms) := by
  refine ⟨?_, rfl, ?_⟩
  · rfl
  · rfl
